import Mathlib

/-
Shallow embedding of the saliency-map generator of
src/brain_tumor_prediction.py (function generate_saliency_map, lines
54-102), together with a verification of the claims C1-C10 about it.

Modelling conventions:
* numpy arrays are total functions from coordinates to rationals, paired
  with explicit height/width/channel counts (structures Arr2, Arr3,
  Arr3N); out-of-range coordinates carry junk values that no pipeline
  operation observes on the in-range part.
* float arithmetic is idealised as rational arithmetic; the float
  literals 0.3 and 0.7 of lines 90-91 become 3/10 and 7/10.
* numpy astype(np.uint8) on lines 85 and 92 is truncation toward zero
  followed by reduction mod 256 (toUInt8).
* cv2.resize with the default INTER_LINEAR interpolation is bilinear
  interpolation with the cv2 coordinate mapping and edge clamping
  (resizeQ, resize3); resizing a uint8 image rounds and saturates
  (satRound).
* cv2.GaussianBlur (11, 11) is separable convolution with an 11-tap
  kernel passed as a parameter, because the concrete Gaussian weights
  are transcendental; theorems that depend on the weights state their
  assumptions on the kernel explicitly, the others hold for every kernel.
* cv2.applyColorMap with COLORMAP_JET followed by cv2.cvtColor BGR2RGB
  is the standard piecewise linear jet formula (jetRGB) that the OpenCV
  lookup table tabulates; channel 0 is red, channel 2 is blue.
* the Keras model and tf.GradientTape are abstracted as DiffModel: a
  prediction function plus an opaque gradient function.
* the enclosing-scope variables img and uploaded_file read by line 90
  and lines 94-100 are made explicit: the original image becomes the
  origImg argument; the file write of lines 94-100 is an external side
  effect that does not influence the returned composite.
* generateSaliencyMapT also returns how many tensor computations (model
  forward or gradient evaluations) were performed, mirroring the
  statement order of lines 55-61: the forward pass of line 58 runs
  before the class-index slice of line 59 can fail.
-/

namespace BrainTumor

/-- Truncation of a rational toward zero, as in the C float-to-int
conversion that numpy astype performs. -/
def ratTrunc (q : ℚ) : ℤ := if 0 ≤ q then ⌊q⌋ else -⌊-q⌋

/-- Conversion to uint8 as numpy astype(np.uint8) on lines 85 and 92:
truncate toward zero, then reduce mod 256. -/
def toUInt8 (q : ℚ) : ℕ := (ratTrunc q % 256).toNat

/-- Saturating round to uint8, as the OpenCV saturate_cast performed when
a uint8 image is resized. -/
def satRound (q : ℚ) : ℕ := (min 255 (max 0 (round q))).toNat

/-- Clamp a rational to the unit interval. -/
def clamp01 (q : ℚ) : ℚ := max 0 (min 1 q)

/-- Reference definition following the spec wording for the composite
step: clip to [0, 255], then cast to an 8-bit integer. Claim C9 compares
it with the code cast toUInt8. -/
def clipCast (q : ℚ) : ℕ := (min 255 (max 0 (ratTrunc q))).toNat

/-- Two dimensional numeric array (gradient maps): height, width and a
total value function in row, column order. -/
structure Arr2 where
  h : ℕ
  w : ℕ
  val : ℕ → ℕ → ℚ

/-- Three dimensional numeric array (image tensors with a channel
axis). -/
structure Arr3 where
  h : ℕ
  w : ℕ
  ch : ℕ
  val : ℕ → ℕ → ℕ → ℚ

/-- Three dimensional array of 8-bit naturals (uint8 images). -/
structure Arr3N where
  h : ℕ
  w : ℕ
  ch : ℕ
  val : ℕ → ℕ → ℕ → ℕ

/-- Numpy ndarray.min on the value list; 0 on the empty list, which the
pipeline never reaches (claim C10). -/
def listMin : List ℚ → ℚ
  | [] => 0
  | a :: l => l.foldl min a

/-- Numpy ndarray.max on the value list; 0 on the empty list, which the
pipeline never reaches (claim C10). -/
def listMax : List ℚ → ℚ
  | [] => 0
  | a :: l => l.foldl max a

/-- Membership in the circular mask of lines 68-71. The source builds
center = (shape0 // 2, shape1 // 2) and radius = min(center) - 10, and
compares the column offset x against center[0] and the row offset y
against center[1], because np.ogrid yields y over rows and x over
columns while center mixes the two shape components. -/
def inMask (H W y x : ℕ) : Prop :=
  ((x : ℤ) - ((H / 2 : ℕ) : ℤ)) ^ 2 + ((y : ℤ) - ((W / 2 : ℕ) : ℤ)) ^ 2 ≤
    (min ((H / 2 : ℕ) : ℤ) ((W / 2 : ℕ) : ℤ) - 10) ^ 2

instance instDecidableInMask (H W y x : ℕ) : Decidable (inMask H W y x) := by
  unfold inMask; infer_instance

/-- Row-major list of the coordinates inside the circular mask, the order
in which numpy boolean indexing enumerates gradients[mask]. -/
def maskCoords (H W : ℕ) : List (ℕ × ℕ) :=
  ((List.range H).product (List.range W)).filter fun p => decide (inMask H W p.1 p.2)

/-- Value list gradients[mask] of the masked positions (lines 75 and 80). -/
def brainVals (g : Arr2) : List ℚ :=
  (maskCoords g.h g.w).map fun p => g.val p.1 p.2

/-- Line 73: gradients = gradients * mask. -/
def applyMask (g : Arr2) : Arr2 :=
  ⟨g.h, g.w, fun y x => if inMask g.h g.w y x then g.val y x else 0⟩

/-- Lines 75-78: min-max normalisation of the masked values, performed
only when the in-mask maximum strictly exceeds the in-mask minimum; the
in-place update never changes the dimensions. -/
def normalizeInMask (g : Arr2) : Arr2 :=
  ⟨g.h, g.w, fun y x =>
    if listMax (brainVals g) > listMin (brainVals g) then
      if inMask g.h g.w y x then
        (g.val y x - listMin (brainVals g)) /
          (listMax (brainVals g) - listMin (brainVals g))
      else g.val y x
    else g.val y x⟩

/-- Numpy percentile at q = 80 with the default linear interpolation. -/
def percentile80 (l : List ℚ) : ℚ :=
  let s := l.mergeSort fun a b => decide (a ≤ b)
  let hq : ℚ := 4 * ((s.length : ℚ) - 1) / 5
  let lo : ℕ := (⌊hq⌋).toNat
  let v0 := s.getD lo 0
  let v1 := s.getD (lo + 1) v0
  v0 + (hq - (lo : ℚ)) * (v1 - v0)

/-- Lines 80-81: zero out, over the whole map, every value strictly below
the 80th percentile of the masked values. -/
def thresholdStep (g : Arr2) : Arr2 :=
  ⟨g.h, g.w, fun y x => if g.val y x < percentile80 (brainVals g) then 0 else g.val y x⟩

/-- Number of in-mask pixels holding a non-zero value. -/
def countNonzeroInMask (g : Arr2) : ℕ :=
  ((maskCoords g.h g.w).filter fun p => decide (g.val p.1 p.2 ≠ 0)).length

/-- Clamp an integer index into [0, n-1]. -/
def clampIdx (n : ℕ) (i : ℤ) : ℕ := (max 0 (min i ((n : ℤ) - 1))).toNat

/-- Source coordinate of the cv2 INTER_LINEAR coordinate mapping. -/
def srcCoord (n newN j : ℕ) : ℚ := ((j : ℚ) + 1/2) * n / newN - 1/2

/-- Line 66: cv2.resize to dsize = (width, height) with bilinear
interpolation, producing a height x width array. -/
def resizeQ (size : ℕ × ℕ) (g : Arr2) : Arr2 :=
  ⟨size.2, size.1, fun y x =>
    let sy := srcCoord g.h size.2 y
    let sx := srcCoord g.w size.1 x
    let b := sy - (⌊sy⌋ : ℚ)
    let a := sx - (⌊sx⌋ : ℚ)
    let s := fun (i j : ℤ) => g.val (clampIdx g.h i) (clampIdx g.w j)
    (1 - b) * ((1 - a) * s ⌊sy⌋ ⌊sx⌋ + a * s ⌊sy⌋ (⌊sx⌋ + 1)) +
      b * ((1 - a) * s (⌊sy⌋ + 1) ⌊sx⌋ + a * s (⌊sy⌋ + 1) (⌊sx⌋ + 1))⟩

/-- Line 88: cv2.resize of the 3-channel uint8 heatmap, bilinear per
channel with saturating rounding. -/
def resize3 (size : ℕ × ℕ) (hm : Arr3N) : Arr3N :=
  ⟨size.2, size.1, hm.ch, fun y x c =>
    let sy := srcCoord hm.h size.2 y
    let sx := srcCoord hm.w size.1 x
    let b := sy - (⌊sy⌋ : ℚ)
    let a := sx - (⌊sx⌋ : ℚ)
    let s := fun (i j : ℤ) => ((hm.val (clampIdx hm.h i) (clampIdx hm.w j) c : ℕ) : ℚ)
    satRound ((1 - b) * ((1 - a) * s ⌊sy⌋ ⌊sx⌋ + a * s ⌊sy⌋ (⌊sx⌋ + 1)) +
      b * ((1 - a) * s (⌊sy⌋ + 1) ⌊sx⌋ + a * s (⌊sy⌋ + 1) (⌊sx⌋ + 1)))⟩

/-- BORDER_REFLECT_101 index reflection, exact for offsets smaller than
the image side; gaussianBlur clamps the result for safety. -/
def reflect101 (n : ℕ) (i : ℤ) : ℤ :=
  if n ≤ 1 then 0
  else if i < 0 then -i
  else if (n : ℤ) ≤ i then 2 * ((n : ℤ) - 1) - i
  else i

/-- Line 83: cv2.GaussianBlur with an 11 x 11 separable kernel k. -/
def gaussianBlur (k : List ℚ) (g : Arr2) : Arr2 :=
  ⟨g.h, g.w, fun y x =>
    ∑ i ∈ Finset.range 11, ∑ j ∈ Finset.range 11,
      k.getD i 0 * k.getD j 0 *
        g.val (clampIdx g.h (reflect101 g.h ((y : ℤ) + (i : ℤ) - 5)))
          (clampIdx g.w (reflect101 g.w ((x : ℤ) + (j : ℤ) - 5)))⟩

/-- Lines 85-86: COLORMAP_JET lookup followed by BGR to RGB conversion,
modelled by the standard piecewise linear jet formula that the OpenCV
lookup table tabulates; channel 0 is red, channel 2 is blue. -/
def jetRGB (idx : ℕ) (c : ℕ) : ℕ :=
  let x : ℚ := (idx : ℚ) / 255
  let f : ℚ :=
    if c = 0 then min (4 * x - 3/2) (-4 * x + 9/2)
    else if c = 1 then min (4 * x - 1/2) (-4 * x + 7/2)
    else if c = 2 then min (4 * x + 1/2) (-4 * x + 5/2)
    else 0
  (round (255 * clamp01 f)).toNat

/-- Line 85: np.uint8(255 * gradients), then the jet lookup per pixel. -/
def colorMapJetRGB (g : Arr2) : Arr3N :=
  ⟨g.h, g.w, 3, fun y x c => jetRGB (toUInt8 (255 * g.val y x)) c⟩

/-- Lines 62-64: absolute value of the gradient tensor, then per-pixel
maximum over the channel axis. -/
def reduceMaxAbs (t : Arr3) : Arr2 :=
  ⟨t.h, t.w, fun y x => listMax ((List.range t.ch).map fun c => |t.val y x c|)⟩

/-- Failure conditions of the generator, following the spec taxonomy. -/
inductive SalError where
  | invalidArgument
  | unsupportedOperation

/-- Abstraction of the Keras model together with tf.GradientTape: predict
is the forward pass of line 58, grad the tape.gradient call of line 61. -/
structure DiffModel where
  numClasses : ℕ
  predict : Arr3 → List ℚ
  grad : Arr3 → ℕ → Arr3
  predict_len : ∀ t, (predict t).length = numClasses

/-- Lines 61-64. -/
def gradStage (m : DiffModel) (imgArray : Arr3) (classIndex : ℕ) : Arr2 :=
  reduceMaxAbs (m.grad imgArray classIndex)

/-- Line 66. -/
def resizedStage (m : DiffModel) (imgArray : Arr3) (classIndex : ℕ)
    (imgSize : ℕ × ℕ) : Arr2 :=
  resizeQ imgSize (gradStage m imgArray classIndex)

/-- Line 73. -/
def maskedStage (m : DiffModel) (imgArray : Arr3) (classIndex : ℕ)
    (imgSize : ℕ × ℕ) : Arr2 :=
  applyMask (resizedStage m imgArray classIndex imgSize)

/-- Lines 75-78. -/
def normStage (m : DiffModel) (imgArray : Arr3) (classIndex : ℕ)
    (imgSize : ℕ × ℕ) : Arr2 :=
  normalizeInMask (maskedStage m imgArray classIndex imgSize)

/-- Lines 80-81. -/
def threshStage (m : DiffModel) (imgArray : Arr3) (classIndex : ℕ)
    (imgSize : ℕ × ℕ) : Arr2 :=
  thresholdStep (normStage m imgArray classIndex imgSize)

/-- Line 83. -/
def blurStage (m : DiffModel) (imgArray : Arr3) (classIndex : ℕ)
    (imgSize : ℕ × ℕ) (k : List ℚ) : Arr2 :=
  gaussianBlur k (threshStage m imgArray classIndex imgSize)

/-- Lines 85-88. -/
def heatStage (m : DiffModel) (imgArray : Arr3) (classIndex : ℕ)
    (imgSize : ℕ × ℕ) (k : List ℚ) : Arr3N :=
  resize3 imgSize (colorMapJetRGB (blurStage m imgArray classIndex imgSize k))

/-- Lines 90-92: superimposed = heatmap * 0.7 + img_to_array(img) * 0.3,
cast to uint8. The enclosing-scope image img is the explicit origImg. -/
def compositeOf (hm : Arr3N) (origImg : Arr3) : Arr3N :=
  ⟨hm.h, hm.w, 3, fun y x c =>
    toUInt8 ((hm.val y x c : ℚ) * (7/10) + origImg.val y x c * (3/10))⟩

/-- Lines 54-102 with an instrumentation counter: the second component
counts the tensor computations performed (the forward pass of line 58
and the gradient of line 61). An out-of-range class index fails at the
slice of line 59, after the forward pass has already run. -/
def generateSaliencyMapT (m : DiffModel) (imgArray : Arr3) (classIndex : ℕ)
    (imgSize : ℕ × ℕ) (k : List ℚ) (origImg : Arr3) : Except SalError Arr3N × ℕ :=
  let predictions := m.predict imgArray
  if classIndex < predictions.length then
    (Except.ok (compositeOf (heatStage m imgArray classIndex imgSize k) origImg), 2)
  else
    (Except.error SalError.invalidArgument, 1)

/-- The generator as the caller sees it: the returned composite. -/
def generateSaliencyMap (m : DiffModel) (imgArray : Arr3) (classIndex : ℕ)
    (imgSize : ℕ × ℕ) (k : List ℚ) (origImg : Arr3) : Except SalError Arr3N :=
  (generateSaliencyMapT m imgArray classIndex imgSize k origImg).1

/-- Observation of one channel value of a returned composite. -/
def compositeValAt (r : Except SalError Arr3N) (y x c : ℕ) : Option ℕ :=
  match r with
  | Except.ok a => some (a.val y x c)
  | Except.error _ => none

/-- Uniform 11-tap kernel used to instantiate the blur parameter in the
concrete scenarios; like the Gaussian kernel it stands in for, it is
nonnegative and sums to 1. -/
def uniform11 : List ℚ :=
  [1/11, 1/11, 1/11, 1/11, 1/11, 1/11, 1/11, 1/11, 1/11, 1/11, 1/11]

/-- Constant image tensor. -/
def constArr3 (h w ch : ℕ) (c : ℚ) : Arr3 := ⟨h, w, ch, fun _ _ _ => c⟩

/-- Four-class classifier stub on 299 x 299 inputs whose gradient is
constantly zero. -/
def stubModel299 : DiffModel :=
  ⟨4, fun _ => [1, 0, 0, 0], fun _ _ => constArr3 299 299 3 0, fun _ => rfl⟩

/-- One-class classifier stub on 1 x 1 inputs whose gradient is
constantly one. -/
def stubModel1 : DiffModel :=
  ⟨1, fun _ => [1], fun _ _ => constArr3 1 1 3 1, fun _ => rfl⟩

/-- Mid-gray normalized 299 x 299 input tensor. -/
def gray299 : Arr3 := constArr3 299 299 3 (1/2)

/-- Mid-gray 299 x 299 original image in the [0, 255] display range. -/
def orig299 : Arr3 := constArr3 299 299 3 128

/-- Mid-gray normalized 1 x 1 input tensor. -/
def mid1 : Arr3 := constArr3 1 1 3 (1/2)

/-- All-black 1 x 1 original image. -/
def black1 : Arr3 := constArr3 1 1 3 0

/-- All-white 1 x 1 original image. -/
def white1 : Arr3 := constArr3 1 1 3 255

/-- Constant 5 x 5 gradient map whose pixels all equal 1. -/
def onesGrid5 : Arr2 := ⟨5, 5, fun _ _ => 1⟩

/-- A 1 x 2 gradient map holding the values 0 and 1. -/
def rampGrid12 : Arr2 := ⟨1, 2, fun _ x => (x : ℚ)⟩

/-- A 1 x 1 image that agrees with black1 on its extent but holds junk
outside it. -/
def junkImg1 : Arr3 :=
  ⟨1, 1, 3, fun y x c => if y = 0 ∧ x = 0 ∧ c < 3 then 0 else 42⟩

/-
Helper lemmas about the list folds, the mask, the percentile and the
casts, followed by the claim theorems.
-/

theorem foldl_max_init_le (l : List ℚ) (init : ℚ) : init ≤ l.foldl max init := by
  induction l generalizing init with
  | nil => exact le_refl _
  | cons a t ih => exact le_trans (le_max_left init a) (ih (max init a))

theorem foldl_max_of_mem (l : List ℚ) (init a : ℚ) (ha : a ∈ l) :
    a ≤ l.foldl max init := by
  induction l generalizing init with
  | nil => cases ha
  | cons b t ih =>
      rcases List.mem_cons.mp ha with h | h
      · subst h
        exact le_trans (le_max_right init a) (foldl_max_init_le t (max init a))
      · exact ih (max init b) h

theorem le_listMax (l : List ℚ) (a : ℚ) (ha : a ∈ l) : a ≤ listMax l := by
  cases l with
  | nil => cases ha
  | cons b t =>
      rcases List.mem_cons.mp ha with h | h
      · subst h; exact foldl_max_init_le t a
      · exact foldl_max_of_mem t b a h

theorem foldl_min_le_init (l : List ℚ) (init : ℚ) : l.foldl min init ≤ init := by
  induction l generalizing init with
  | nil => exact le_refl _
  | cons a t ih => exact le_trans (ih (min init a)) (min_le_left init a)

theorem foldl_min_of_mem (l : List ℚ) (init a : ℚ) (ha : a ∈ l) :
    l.foldl min init ≤ a := by
  induction l generalizing init with
  | nil => cases ha
  | cons b t ih =>
      rcases List.mem_cons.mp ha with h | h
      · subst h
        exact le_trans (foldl_min_le_init t (min init a)) (min_le_right init a)
      · exact ih (min init b) h

theorem listMin_le (l : List ℚ) (a : ℚ) (ha : a ∈ l) : listMin l ≤ a := by
  cases l with
  | nil => cases ha
  | cons b t =>
      rcases List.mem_cons.mp ha with h | h
      · subst h; exact foldl_min_le_init t a
      · exact foldl_min_of_mem t b a h

theorem foldl_max_all_eq (t : List ℚ) (c : ℚ) (h : ∀ a ∈ t, a = c) :
    t.foldl max c = c := by
  induction t with
  | nil => rfl
  | cons a t ih =>
      rw [List.foldl_cons, h a (List.mem_cons_self a t), max_self]
      exact ih fun b hb => h b (List.mem_cons_of_mem a hb)

theorem listMax_all_eq (l : List ℚ) (c : ℚ) (h : ∀ a ∈ l, a = c) (hne : l ≠ []) :
    listMax l = c := by
  cases l with
  | nil => exact absurd rfl hne
  | cons a t =>
      have ha : a = c := h a (List.mem_cons_self a t)
      show t.foldl max a = c
      rw [ha]
      exact foldl_max_all_eq t c fun b hb => h b (List.mem_cons_of_mem a hb)

theorem foldl_min_all_eq (t : List ℚ) (c : ℚ) (h : ∀ a ∈ t, a = c) :
    t.foldl min c = c := by
  induction t with
  | nil => rfl
  | cons a t ih =>
      rw [List.foldl_cons, h a (List.mem_cons_self a t), min_self]
      exact ih fun b hb => h b (List.mem_cons_of_mem a hb)

theorem listMin_all_eq (l : List ℚ) (c : ℚ) (h : ∀ a ∈ l, a = c) (hne : l ≠ []) :
    listMin l = c := by
  cases l with
  | nil => exact absurd rfl hne
  | cons a t =>
      have ha : a = c := h a (List.mem_cons_self a t)
      show t.foldl min a = c
      rw [ha]
      exact foldl_min_all_eq t c fun b hb => h b (List.mem_cons_of_mem a hb)

theorem mem_maskCoords {H W y x : ℕ} :
    (y, x) ∈ maskCoords H W ↔ y < H ∧ x < W ∧ inMask H W y x := by
  simp [maskCoords, List.mem_filter, List.pair_mem_product, List.mem_range, and_assoc]

theorem maskCoords_center_mem (s : ℕ) (hs : 1 ≤ s) :
    (s / 2, s / 2) ∈ maskCoords s s := by
  refine mem_maskCoords.mpr ⟨Nat.div_lt_self hs one_lt_two, Nat.div_lt_self hs one_lt_two, ?_⟩
  unfold inMask
  rw [sub_self]
  norm_num
  exact sq_nonneg _

theorem brainVals_ne_nil (g : Arr2) (s : ℕ) (hs : 1 ≤ s) (hh : g.h = s) (hw : g.w = s) :
    brainVals g ≠ [] := by
  unfold brainVals
  rw [hh, hw]
  exact List.ne_nil_of_mem (List.mem_map_of_mem _ (maskCoords_center_mem s hs))

theorem percentile80_all_eq (l : List ℚ) (c : ℚ) (hall : ∀ a ∈ l, a = c) (hne : l ≠ []) :
    percentile80 l = c := by
  simp only [percentile80]
  set s := l.mergeSort (fun a b => decide (a ≤ b)) with hsdef
  have hmem : ∀ a ∈ s, a = c := fun a ha =>
    hall a (List.mem_mergeSort.mp (hsdef ▸ ha))
  have hlen : 0 < s.length := by
    rw [hsdef, List.length_mergeSort]
    exact List.length_pos.mpr hne
  have h01 : (1 : ℚ) ≤ (s.length : ℚ) := by exact_mod_cast hlen
  have h1 : 4 * ((s.length : ℚ) - 1) / 5 ≤ (s.length : ℚ) - 1 := by
    rw [div_le_iff₀ (by norm_num : (0:ℚ) < 5)]
    linarith
  have hlo : (⌊4 * ((s.length : ℚ) - 1) / 5⌋).toNat < s.length := by
    have h2 : ⌊4 * ((s.length : ℚ) - 1) / 5⌋ < (s.length : ℤ) := by
      rw [Int.floor_lt]
      push_cast
      linarith
    omega
  have hv0 : s.getD (⌊4 * ((s.length : ℚ) - 1) / 5⌋).toNat 0 = c := by
    rw [List.getD_eq_getElem s 0 hlo]
    exact hmem _ (List.getElem_mem hlo)
  rw [hv0]
  by_cases hlo1 : (⌊4 * ((s.length : ℚ) - 1) / 5⌋).toNat + 1 < s.length
  · rw [List.getD_eq_getElem s c hlo1, hmem _ (List.getElem_mem hlo1)]
    ring
  · rw [List.getD_eq_default _ _ (by omega)]
    ring

theorem toUInt8_le (q : ℚ) : toUInt8 q ≤ 255 := by
  unfold toUInt8
  omega

theorem toUInt8_eq_of (q : ℚ) (n : ℕ) (h1 : (n : ℚ) ≤ q) (h2 : q < (n : ℚ) + 1)
    (h3 : n ≤ 255) : toUInt8 q = n := by
  have h0 : 0 ≤ q := le_trans (by positivity) h1
  have hf : ⌊q⌋ = (n : ℤ) := by
    rw [Int.floor_eq_iff]
    constructor
    · push_cast
      exact h1
    · push_cast
      exact h2
  unfold toUInt8 ratTrunc
  rw [if_pos h0, hf]
  omega

theorem satRound_natCast (v : ℕ) (hv : v ≤ 255) : satRound (v : ℚ) = v := by
  unfold satRound
  rw [round_natCast]
  omega

theorem satRound_le (q : ℚ) : satRound q ≤ 255 := by
  unfold satRound
  omega

theorem clampIdx_lt (n : ℕ) (i : ℤ) (hn : 0 < n) : clampIdx n i < n := by
  unfold clampIdx
  omega

theorem bilinear_const (a b v : ℚ) :
    (1 - b) * ((1 - a) * v + a * v) + b * ((1 - a) * v + a * v) = v := by
  ring

theorem resizeQ_const (size : ℕ × ℕ) (g : Arr2) (c : ℚ) (hh : 0 < g.h) (hw : 0 < g.w)
    (hval : ∀ y x, y < g.h → x < g.w → g.val y x = c) :
    ∀ y x, (resizeQ size g).val y x = c := by
  intro y x
  have hs : ∀ (i j : ℤ), g.val (clampIdx g.h i) (clampIdx g.w j) = c := fun i j =>
    hval _ _ (clampIdx_lt _ _ hh) (clampIdx_lt _ _ hw)
  simp only [resizeQ, hs]
  exact bilinear_const _ _ c

theorem resize3_const (size : ℕ × ℕ) (hm : Arr3N) (c v : ℕ) (hh : 0 < hm.h)
    (hw : 0 < hm.w) (hv : v ≤ 255)
    (hval : ∀ y x, y < hm.h → x < hm.w → hm.val y x c = v) :
    ∀ y x, (resize3 size hm).val y x c = v := by
  intro y x
  have hs : ∀ (i j : ℤ), ((hm.val (clampIdx hm.h i) (clampIdx hm.w j) c : ℕ) : ℚ) = (v : ℚ) :=
    fun i j => by rw [hval _ _ (clampIdx_lt _ _ hh) (clampIdx_lt _ _ hw)]
  simp only [resize3, hs]
  rw [bilinear_const]
  exact satRound_natCast v hv

theorem gaussianBlur_zero (k : List ℚ) (g : Arr2) (hh : 0 < g.h) (hw : 0 < g.w)
    (hval : ∀ y x, y < g.h → x < g.w → g.val y x = 0) :
    ∀ y x, (gaussianBlur k g).val y x = 0 := by
  intro y x
  have hs : ∀ (i j : ℤ), g.val (clampIdx g.h i) (clampIdx g.w j) = 0 := fun i j =>
    hval _ _ (clampIdx_lt _ _ hh) (clampIdx_lt _ _ hw)
  simp only [gaussianBlur, hs, mul_zero, Finset.sum_const_zero]

theorem gaussianBlur_const (k : List ℚ) (g : Arr2) (c : ℚ)
    (hk : ∑ i ∈ Finset.range 11, k.getD i 0 = 1) (hh : 0 < g.h) (hw : 0 < g.w)
    (hval : ∀ y x, y < g.h → x < g.w → g.val y x = c) :
    ∀ y x, (gaussianBlur k g).val y x = c := by
  intro y x
  have hs : ∀ (i j : ℤ), g.val (clampIdx g.h i) (clampIdx g.w j) = c := fun i j =>
    hval _ _ (clampIdx_lt _ _ hh) (clampIdx_lt _ _ hw)
  simp only [gaussianBlur, hs]
  have hrow : ∀ i ∈ Finset.range 11,
      ∑ j ∈ Finset.range 11, k.getD i 0 * k.getD j 0 * c = k.getD i 0 * c := by
    intro i _
    have : ∀ j ∈ Finset.range 11,
        k.getD i 0 * k.getD j 0 * c = k.getD i 0 * c * k.getD j 0 := by
      intro j _; ring
    rw [Finset.sum_congr rfl this, ← Finset.mul_sum, hk, mul_one]
  rw [Finset.sum_congr rfl hrow, ← Finset.sum_mul, hk, one_mul]

theorem uniform11_sum : ∑ i ∈ Finset.range 11, uniform11.getD i 0 = 1 := by
  norm_num [uniform11, Finset.sum_range_succ, List.getD_cons_zero, List.getD_cons_succ]

theorem gen_ok {m : DiffModel} {imgArray : Arr3} {ci : ℕ} {sz : ℕ × ℕ} {k : List ℚ}
    {o : Arr3} (hci : ci < m.numClasses) :
    generateSaliencyMap m imgArray ci sz k o =
      Except.ok (compositeOf (heatStage m imgArray ci sz k) o) := by
  simp only [generateSaliencyMap, generateSaliencyMapT, m.predict_len, hci, if_true]

/-- C1: for every valid call, the returned composite has the requested
spatial dimensions (cv2 dsize order: sz.1 is the width, sz.2 the
height), 3 channels, and every value is a natural number at most 255. -/
theorem c1_output_shape_range (m : DiffModel) (imgArray : Arr3) (ci : ℕ) (sz : ℕ × ℕ)
    (k : List ℚ) (o : Arr3) (hci : ci < m.numClasses) :
    ∃ comp : Arr3N, generateSaliencyMap m imgArray ci sz k o = Except.ok comp ∧
      comp.h = sz.2 ∧ comp.w = sz.1 ∧ comp.ch = 3 ∧ ∀ y x c, comp.val y x c ≤ 255 :=
  ⟨_, gen_ok hci, rfl, rfl, rfl, fun _ _ _ => toUInt8_le _⟩

/-- Witness for C1 at a concrete one-class model on a 1 x 1 image. -/
theorem c1_output_shape_range_witness :
    0 < stubModel1.numClasses ∧
      ∃ comp : Arr3N,
        generateSaliencyMap stubModel1 mid1 0 (1, 1) uniform11 black1 = Except.ok comp ∧
          comp.h = (1, 1).2 ∧ comp.w = (1, 1).1 ∧ comp.ch = 3 ∧
          ∀ y x c, comp.val y x c ≤ 255 :=
  ⟨by decide, c1_output_shape_range stubModel1 mid1 0 (1, 1) uniform11 black1 (by decide)⟩

/-- C4 counterexample: on a constant gradient map every in-mask value ties
with the 80th percentile, nothing is strictly below it, and all 25 of the
25 in-mask pixels stay non-zero, more than the claimed 20 percent. -/
theorem c4_cex_threshold_fraction :
    countNonzeroInMask (thresholdStep onesGrid5) = 25 ∧
      (maskCoords onesGrid5.h onesGrid5.w).length = 25 ∧
      ¬ (5 * countNonzeroInMask (thresholdStep onesGrid5) ≤
          (maskCoords onesGrid5.h onesGrid5.w).length) := by
  have hmc : (maskCoords onesGrid5.h onesGrid5.w).length = 25 := by decide
  have hbv : ∀ v ∈ brainVals onesGrid5, v = 1 := by
    intro v hv
    obtain ⟨p, _, hpv⟩ := List.mem_map.mp hv
    exact hpv.symm
  have hne : brainVals onesGrid5 ≠ [] :=
    brainVals_ne_nil onesGrid5 5 (by norm_num) rfl rfl
  have ht : percentile80 (brainVals onesGrid5) = 1 := percentile80_all_eq _ 1 hbv hne
  have hcount : countNonzeroInMask (thresholdStep onesGrid5) = 25 := by
    unfold countNonzeroInMask
    rw [List.filter_eq_self.mpr ?_]
    · exact hmc
    · intro p _
      rw [decide_eq_true_eq]
      show ¬ (if onesGrid5.val p.1 p.2 < percentile80 (brainVals onesGrid5) then 0
          else onesGrid5.val p.1 p.2) = 0
      rw [ht]
      norm_num [onesGrid5]
  exact ⟨hcount, hmc, by omega⟩

/-- C4 amended: the threshold step zeroes exactly the pixels strictly
below the 80th percentile of the in-mask values; every surviving pixel
keeps its value, which is at least the threshold. The 20 percent bound of
the claim fails when values tie with the threshold. -/
theorem c4_threshold_keeps_ge (g : Arr2) (y x : ℕ) :
    (thresholdStep g).val y x = 0 ∨
      (percentile80 (brainVals g) ≤ (thresholdStep g).val y x ∧
        (thresholdStep g).val y x = g.val y x) := by
  by_cases h : g.val y x < percentile80 (brainVals g)
  · left
    show (if g.val y x < percentile80 (brainVals g) then 0 else g.val y x) = 0
    rw [if_pos h]
  · right
    constructor
    · show percentile80 (brainVals g) ≤
        (if g.val y x < percentile80 (brainVals g) then 0 else g.val y x)
      rw [if_neg h]
      exact not_lt.mp h
    · show (if g.val y x < percentile80 (brainVals g) then 0 else g.val y x) = g.val y x
      rw [if_neg h]

/-- C5 counterexample: on a 24 x 24 output the mask contains the pixel in
row 14, column 12, which lies only 9 rows away from the bottom edge, so
the mask does not keep a margin of at least 10 pixels from every edge. -/
theorem c5_cex_margin :
    ¬ ∀ H W y x : ℕ, inMask H W y x →
        10 ≤ y ∧ 10 ≤ x ∧ y + 10 ≤ H - 1 ∧ x + 10 ≤ W - 1 := by
  intro h
  have := h 24 24 14 12 (by decide)
  omega

/-- C5 amended: for square outputs with side at least 20, every mask pixel
keeps at least 10 pixels of margin from the top and left edges and at
least 9 from the bottom and right edges; when the side is odd the margin
is at least 10 on every side. -/
theorem c5_square_margin (s y x : ℕ) (hs : 20 ≤ s) (h : inMask s s y x) :
    10 ≤ y ∧ 10 ≤ x ∧ y + 10 ≤ s ∧ x + 10 ≤ s ∧
      (s % 2 = 1 → y + 11 ≤ s ∧ x + 11 ≤ s) := by
  have hc : (10 : ℤ) ≤ ((s / 2 : ℕ) : ℤ) := by omega
  unfold inMask at h
  rw [min_self] at h
  have hx2 : ((x : ℤ) - ((s / 2 : ℕ) : ℤ)) ^ 2 ≤ (((s / 2 : ℕ) : ℤ) - 10) ^ 2 := by
    nlinarith [sq_nonneg ((y : ℤ) - ((s / 2 : ℕ) : ℤ))]
  have hy2 : ((y : ℤ) - ((s / 2 : ℕ) : ℤ)) ^ 2 ≤ (((s / 2 : ℕ) : ℤ) - 10) ^ 2 := by
    nlinarith [sq_nonneg ((x : ℤ) - ((s / 2 : ℕ) : ℤ))]
  have keyx : ((x : ℤ) - 10) * (2 * ((s / 2 : ℕ) : ℤ) - 10 - (x : ℤ)) ≥ 0 := by
    nlinarith [hx2]
  have keyy : ((y : ℤ) - 10) * (2 * ((s / 2 : ℕ) : ℤ) - 10 - (y : ℤ)) ≥ 0 := by
    nlinarith [hy2]
  have hx10 : (10 : ℤ) ≤ (x : ℤ) := by
    by_contra hlt
    push_neg at hlt
    nlinarith [keyx, hc]
  have hxhi : (x : ℤ) ≤ 2 * ((s / 2 : ℕ) : ℤ) - 10 := by
    by_contra hlt
    push_neg at hlt
    nlinarith [keyx, hc]
  have hy10 : (10 : ℤ) ≤ (y : ℤ) := by
    by_contra hlt
    push_neg at hlt
    nlinarith [keyy, hc]
  have hyhi : (y : ℤ) ≤ 2 * ((s / 2 : ℕ) : ℤ) - 10 := by
    by_contra hlt
    push_neg at hlt
    nlinarith [keyy, hc]
  omega

/-- Witness for C5 amended at the odd square side 25. -/
theorem c5_square_margin_witness :
    20 ≤ 25 ∧ inMask 25 25 12 12 ∧
      (10 ≤ 12 ∧ 10 ≤ 12 ∧ 12 + 10 ≤ 25 ∧ 12 + 10 ≤ 25 ∧
        (25 % 2 = 1 → 12 + 11 ≤ 25 ∧ 12 + 11 ≤ 25)) :=
  ⟨by decide, by decide, c5_square_margin 25 12 12 (by decide) (by decide)⟩

/-- C6 counterexample: class index 4 against the four-class stub fails
with InvalidArgument, but the instrumentation counter shows one tensor
computation (the forward pass of line 58) already ran, so the failure
does not occur before any tensor computation. -/
theorem c6_cex_forward_pass :
    generateSaliencyMapT stubModel299 gray299 4 (299, 299) uniform11 orig299 =
        (Except.error SalError.invalidArgument, 1) ∧
      (generateSaliencyMapT stubModel299 gray299 4 (299, 299) uniform11 orig299).2 ≠ 0 := by
  have h1 : generateSaliencyMapT stubModel299 gray299 4 (299, 299) uniform11 orig299 =
      (Except.error SalError.invalidArgument, 1) := rfl
  exact ⟨h1, by rw [h1]; decide⟩

theorem genT_invalid {m : DiffModel} {imgArray : Arr3} {ci : ℕ} {sz : ℕ × ℕ}
    {k : List ℚ} {o : Arr3} (hci : m.numClasses ≤ ci) :
    generateSaliencyMapT m imgArray ci sz k o =
      (Except.error SalError.invalidArgument, 1) := by
  have h : ¬ ci < (m.predict imgArray).length := by
    rw [m.predict_len]
    omega
  simp only [generateSaliencyMapT, h, if_false]

/-- C6 amended: an out-of-range class index always fails with
InvalidArgument, but only after the forward pass has run (the counter is
1, not 0): the index is rejected by the prediction slice of line 59, not
by any up-front validation. -/
theorem c6_invalid_after_forward (m : DiffModel) (imgArray : Arr3) (ci : ℕ)
    (sz : ℕ × ℕ) (k : List ℚ) (o : Arr3) (hci : m.numClasses ≤ ci) :
    generateSaliencyMapT m imgArray ci sz k o =
      (Except.error SalError.invalidArgument, 1) :=
  genT_invalid hci

/-- Witness for C6 amended at the one-class stub with class index 1. -/
theorem c6_invalid_after_forward_witness :
    stubModel1.numClasses ≤ 1 ∧
      generateSaliencyMapT stubModel1 mid1 1 (1, 1) uniform11 black1 =
        (Except.error SalError.invalidArgument, 1) :=
  ⟨by decide, c6_invalid_after_forward stubModel1 mid1 1 (1, 1) uniform11 black1 (by decide)⟩

/-- C10: for every square output side at least 1, the center pixel
satisfies the mask inequality (the squared radius is nonnegative), the
mask coordinate list is nonempty, and therefore the in-mask value list
that the min, max and percentile computations consume is nonempty. -/
theorem c10_mask_nonempty (s : ℕ) (hs : 1 ≤ s) :
    inMask s s (s / 2) (s / 2) ∧ (s / 2, s / 2) ∈ maskCoords s s ∧
      maskCoords s s ≠ [] ∧ ∀ g : Arr2, g.h = s → g.w = s → brainVals g ≠ [] := by
  have hmem := maskCoords_center_mem s hs
  refine ⟨(mem_maskCoords.mp hmem).2.2, hmem, List.ne_nil_of_mem hmem, ?_⟩
  intro g hh hw
  unfold brainVals
  rw [hh, hw]
  exact List.ne_nil_of_mem (List.mem_map_of_mem _ (maskCoords_center_mem s hs))

/-- Witness for C10 at side 3. -/
theorem c10_mask_nonempty_witness :
    1 ≤ 3 ∧ (inMask 3 3 (3 / 2) (3 / 2) ∧ (3 / 2, 3 / 2) ∈ maskCoords 3 3 ∧
      maskCoords 3 3 ≠ [] ∧ ∀ g : Arr2, g.h = 3 → g.w = 3 → brainVals g ≠ []) :=
  ⟨by decide, c10_mask_nonempty 3 (by decide)⟩

theorem normalizeInMask_val (g : Arr2)
    (hlt : listMin (brainVals g) < listMax (brainVals g)) (y x : ℕ) :
    (normalizeInMask g).val y x =
      if inMask g.h g.w y x then
        (g.val y x - listMin (brainVals g)) /
          (listMax (brainVals g) - listMin (brainVals g))
      else g.val y x := by
  show (if listMax (brainVals g) > listMin (brainVals g) then _ else g.val y x) = _
  rw [if_pos hlt]

theorem normalizeInMask_skip (g : Arr2)
    (h : listMax (brainVals g) = listMin (brainVals g)) :
    normalizeInMask g = g := by
  have hfun : ∀ y x, (normalizeInMask g).val y x = g.val y x := by
    intro y x
    show (if listMax (brainVals g) > listMin (brainVals g) then _ else g.val y x) = g.val y x
    rw [if_neg]
    rw [h]
    exact lt_irrefl _
  cases g with
  | mk hh ww vv =>
      show Arr2.mk hh ww _ = Arr2.mk hh ww vv
      congr 1
      funext y x
      exact hfun y x

theorem applyMask_val (g : Arr2) (y x : ℕ) :
    (applyMask g).val y x = if inMask g.h g.w y x then g.val y x else 0 := rfl

theorem thresholdStep_val (g : Arr2) (y x : ℕ) :
    (thresholdStep g).val y x =
      if g.val y x < percentile80 (brainVals g) then 0 else g.val y x := rfl

theorem colorMapJetRGB_val (g : Arr2) (y x c : ℕ) :
    (colorMapJetRGB g).val y x c = jetRGB (toUInt8 (255 * g.val y x)) c := rfl

theorem compositeOf_val (hm : Arr3N) (o : Arr3) (y x c : ℕ) :
    (compositeOf hm o).val y x c =
      toUInt8 ((hm.val y x c : ℚ) * (7 / 10) + o.val y x c * (3 / 10)) := rfl

theorem brainVals_mem (g : Arr2) {y x : ℕ} (hy : y < g.h) (hx : x < g.w)
    (hm : inMask g.h g.w y x) : g.val y x ∈ brainVals g := by
  unfold brainVals
  exact List.mem_map_of_mem _ (mem_maskCoords.mpr ⟨hy, hx, hm⟩)

theorem ramp_brain : brainVals (applyMask rampGrid12) = [0, 1] := by
  show ((maskCoords 1 2).map fun p => (applyMask rampGrid12).val p.1 p.2) = [0, 1]
  rw [show maskCoords 1 2 = [(0, 0), (0, 1)] from by decide]
  show [if inMask 1 2 0 0 then ((0 : ℕ) : ℚ) else 0,
    if inMask 1 2 0 1 then ((1 : ℕ) : ℚ) else 0] = [0, 1]
  rw [if_pos (by decide : inMask 1 2 0 0), if_pos (by decide : inMask 1 2 0 1)]
  norm_num

theorem ramp_lt :
    listMin (brainVals (applyMask rampGrid12)) < listMax (brainVals (applyMask rampGrid12)) := by
  rw [ramp_brain]
  show List.foldl min 0 [1] < List.foldl max 0 [1]
  simp only [List.foldl_cons, List.foldl_nil]
  norm_num

/-- C2: when the in-mask maximum strictly exceeds the in-mask minimum,
every in-mask pixel is rescaled by the in-mask minimum and maximum into
[0, 1], every pixel outside the mask stays zero, and the value list that
the statistics are computed from only depends on the in-mask pixels of
the incoming map. -/
theorem c2_inmask_normalization (g0 : Arr2)
    (hlt : listMin (brainVals (applyMask g0)) < listMax (brainVals (applyMask g0))) :
    (∀ y x, y < g0.h → x < g0.w → inMask g0.h g0.w y x →
        (normalizeInMask (applyMask g0)).val y x =
          ((applyMask g0).val y x - listMin (brainVals (applyMask g0))) /
            (listMax (brainVals (applyMask g0)) - listMin (brainVals (applyMask g0))) ∧
        0 ≤ (normalizeInMask (applyMask g0)).val y x ∧
        (normalizeInMask (applyMask g0)).val y x ≤ 1) ∧
    (∀ y x, ¬ inMask g0.h g0.w y x → (normalizeInMask (applyMask g0)).val y x = 0) ∧
    (∀ g1 : Arr2, g1.h = g0.h → g1.w = g0.w →
      (∀ p ∈ maskCoords g0.h g0.w, g1.val p.1 p.2 = g0.val p.1 p.2) →
      brainVals (applyMask g1) = brainVals (applyMask g0)) := by
  refine ⟨?_, ?_, ?_⟩
  · intro y x hy hx hm
    have hv := normalizeInMask_val (applyMask g0) hlt y x
    rw [show (applyMask g0).h = g0.h from rfl, show (applyMask g0).w = g0.w from rfl,
      if_pos hm] at hv
    have hmem : (applyMask g0).val y x ∈ brainVals (applyMask g0) :=
      brainVals_mem (applyMask g0) hy hx hm
    have hmn := listMin_le _ _ hmem
    have hmx := le_listMax _ _ hmem
    have hdpos : 0 < listMax (brainVals (applyMask g0)) - listMin (brainVals (applyMask g0)) :=
      sub_pos.mpr hlt
    refine ⟨hv, ?_, ?_⟩
    · rw [hv]
      exact div_nonneg (sub_nonneg.mpr hmn) hdpos.le
    · rw [hv, div_le_one hdpos]
      linarith
  · intro y x hm
    have hv := normalizeInMask_val (applyMask g0) hlt y x
    rw [show (applyMask g0).h = g0.h from rfl, show (applyMask g0).w = g0.w from rfl,
      if_neg hm] at hv
    rw [hv]
    show (if inMask g0.h g0.w y x then g0.val y x else 0) = 0
    rw [if_neg hm]
  · intro g1 h1h h1w hagree
    show ((maskCoords g1.h g1.w).map fun p => (applyMask g1).val p.1 p.2) =
      (maskCoords g0.h g0.w).map fun p => (applyMask g0).val p.1 p.2
    rw [h1h, h1w]
    refine List.map_congr_left ?_
    intro p hp
    rcases p with ⟨y, x⟩
    obtain ⟨hy, hx, hm⟩ := mem_maskCoords.mp hp
    show (if inMask g1.h g1.w y x then g1.val y x else 0) =
      if inMask g0.h g0.w y x then g0.val y x else 0
    rw [h1h, h1w, if_pos hm, if_pos hm]
    exact hagree (y, x) hp

/-- Witness for C2 at the 1 x 2 map holding the values 0 and 1. -/
theorem c2_inmask_normalization_witness :
    listMin (brainVals (applyMask rampGrid12)) < listMax (brainVals (applyMask rampGrid12)) ∧
      (normalizeInMask (applyMask rampGrid12)).val 0 1 =
        ((applyMask rampGrid12).val 0 1 - listMin (brainVals (applyMask rampGrid12))) /
          (listMax (brainVals (applyMask rampGrid12)) -
            listMin (brainVals (applyMask rampGrid12))) :=
  ⟨ramp_lt, ((c2_inmask_normalization rampGrid12 ramp_lt).1 0 1 (by decide) (by decide)
    (by decide)).1⟩

/-- C3: when the gradient map is constant over the mask, the
normalisation step is skipped and leaves the map unchanged, and for every
in-range class index the generator returns a composite without failing. -/
theorem c3_degenerate_skip_total (m : DiffModel) (imgArray : Arr3) (ci : ℕ)
    (sz : ℕ × ℕ) (k : List ℚ) (o : Arr3)
    (hconst : listMax (brainVals (maskedStage m imgArray ci sz)) =
      listMin (brainVals (maskedStage m imgArray ci sz)))
    (hci : ci < m.numClasses) :
    normStage m imgArray ci sz = maskedStage m imgArray ci sz ∧
      ∃ comp, generateSaliencyMap m imgArray ci sz k o = Except.ok comp :=
  ⟨normalizeInMask_skip _ hconst, ⟨_, gen_ok hci⟩⟩

theorem clamp01_nonneg (q : ℚ) : 0 ≤ clamp01 q := le_max_left 0 _

theorem clamp01_le_one (q : ℚ) : clamp01 q ≤ 1 :=
  max_le (by norm_num) (min_le_left 1 q)

theorem round_nonneg_of (q : ℚ) (h : 0 ≤ q) : 0 ≤ round q := by
  rw [round_eq]
  exact Int.floor_nonneg.mpr (by linarith)

theorem round_le_255 (q : ℚ) (h : q ≤ 255) : round q ≤ 255 := by
  rw [round_eq]
  have h2 : q + 1 / 2 < ((256 : ℤ) : ℚ) := by push_cast; linarith
  have := Int.floor_lt.mpr h2
  omega

theorem round_clamp_le (f : ℚ) : (round (255 * clamp01 f)).toNat ≤ 255 := by
  have h0 : 0 ≤ 255 * clamp01 f := mul_nonneg (by norm_num) (clamp01_nonneg f)
  have h1 : 255 * clamp01 f ≤ 255 := by
    have := clamp01_le_one f
    nlinarith
  have hr0 := round_nonneg_of _ h0
  have hr1 := round_le_255 _ h1
  omega

theorem jetRGB_le (idx c : ℕ) : jetRGB idx c ≤ 255 := round_clamp_le _

theorem jetRGB_255_0 : jetRGB 255 0 = 128 := by
  norm_num [jetRGB, clamp01, min_def, max_def, round_eq]
  rfl

theorem jetRGB_255_1 : jetRGB 255 1 = 0 := by
  norm_num [jetRGB, clamp01, min_def, max_def, round_eq]

theorem jetRGB_255_2 : jetRGB 255 2 = 0 := by
  norm_num [jetRGB, clamp01, min_def, max_def, round_eq]

theorem jetRGB_0_0 : jetRGB 0 0 = 0 := by
  norm_num [jetRGB, clamp01, min_def, max_def, round_eq]

theorem jetRGB_0_1 : jetRGB 0 1 = 0 := by
  norm_num [jetRGB, clamp01, min_def, max_def, round_eq]

theorem jetRGB_0_2 : jetRGB 0 2 = 128 := by
  norm_num [jetRGB, clamp01, min_def, max_def, round_eq]
  rfl

theorem toUInt8_255 : toUInt8 (255 : ℚ) = 255 :=
  toUInt8_eq_of 255 255 (by norm_num) (by norm_num) (le_refl 255)

theorem toUInt8_0 : toUInt8 (0 : ℚ) = 0 :=
  toUInt8_eq_of 0 0 (by norm_num) (by norm_num) (by norm_num)

theorem s1_grad : ∀ y x, (gradStage stubModel1 mid1 0).val y x = 1 := by
  intro y x
  show listMax (((List.range 3).map fun c => |(1 : ℚ)|)) = 1
  apply listMax_all_eq
  · intro a ha
    obtain ⟨c, _, rfl⟩ := List.mem_map.mp ha
    exact abs_one
  · simp

theorem s1_resized : ∀ y x, (resizedStage stubModel1 mid1 0 (1, 1)).val y x = 1 :=
  resizeQ_const (1, 1) (gradStage stubModel1 mid1 0) 1 (by decide) (by decide)
    fun y x _ _ => s1_grad y x

theorem s1_masked : ∀ y x, y < 1 → x < 1 →
    (maskedStage stubModel1 mid1 0 (1, 1)).val y x = 1 := by
  intro y x hy hx
  have hy0 : y = 0 := by omega
  have hx0 : x = 0 := by omega
  subst hy0
  subst hx0
  show (if inMask 1 1 0 0 then (resizedStage stubModel1 mid1 0 (1, 1)).val 0 0 else 0) = 1
  rw [if_pos (by decide : inMask 1 1 0 0), s1_resized]

theorem s1_brain_all : ∀ v ∈ brainVals (maskedStage stubModel1 mid1 0 (1, 1)), v = 1 := by
  intro v hv
  obtain ⟨p, hp, rfl⟩ := List.mem_map.mp hv
  rcases p with ⟨y, x⟩
  obtain ⟨hy, hx, -⟩ := mem_maskCoords.mp hp
  exact s1_masked y x hy hx

theorem s1_brain_ne : brainVals (maskedStage stubModel1 mid1 0 (1, 1)) ≠ [] :=
  brainVals_ne_nil _ 1 (by norm_num) rfl rfl

theorem s1_minmax :
    listMax (brainVals (maskedStage stubModel1 mid1 0 (1, 1))) =
      listMin (brainVals (maskedStage stubModel1 mid1 0 (1, 1))) := by
  rw [listMax_all_eq _ 1 s1_brain_all s1_brain_ne,
    listMin_all_eq _ 1 s1_brain_all s1_brain_ne]

theorem s1_norm : normStage stubModel1 mid1 0 (1, 1) = maskedStage stubModel1 mid1 0 (1, 1) :=
  normalizeInMask_skip _ s1_minmax

theorem s1_thresh : ∀ y x, y < 1 → x < 1 →
    (threshStage stubModel1 mid1 0 (1, 1)).val y x = 1 := by
  intro y x hy hx
  show (if (normStage stubModel1 mid1 0 (1, 1)).val y x <
      percentile80 (brainVals (normStage stubModel1 mid1 0 (1, 1))) then 0
    else (normStage stubModel1 mid1 0 (1, 1)).val y x) = 1
  rw [s1_norm, percentile80_all_eq _ 1 s1_brain_all s1_brain_ne, s1_masked y x hy hx,
    if_neg (lt_irrefl (1 : ℚ))]

theorem s1_blur : ∀ y x, (blurStage stubModel1 mid1 0 (1, 1) uniform11).val y x = 1 :=
  gaussianBlur_const uniform11 (threshStage stubModel1 mid1 0 (1, 1)) 1 uniform11_sum
    (by decide) (by decide) s1_thresh

theorem s1_color : ∀ y x c,
    (colorMapJetRGB (blurStage stubModel1 mid1 0 (1, 1) uniform11)).val y x c =
      jetRGB 255 c := by
  intro y x c
  show jetRGB (toUInt8 (255 * (blurStage stubModel1 mid1 0 (1, 1) uniform11).val y x)) c =
    jetRGB 255 c
  rw [s1_blur y x, mul_one, toUInt8_255]

theorem s1_heat : ∀ y x c,
    (heatStage stubModel1 mid1 0 (1, 1) uniform11).val y x c = jetRGB 255 c := by
  intro y x c
  exact resize3_const (1, 1) (colorMapJetRGB (blurStage stubModel1 mid1 0 (1, 1) uniform11))
    c (jetRGB 255 c) (by decide) (by decide) (jetRGB_le 255 c)
    (fun y x _ _ => s1_color y x c) y x

theorem s1_comp_black :
    (compositeOf (heatStage stubModel1 mid1 0 (1, 1) uniform11) black1).val 0 0 0 = 89 := by
  show toUInt8 (((heatStage stubModel1 mid1 0 (1, 1) uniform11).val 0 0 0 : ℚ) * (7 / 10) +
    black1.val 0 0 0 * (3 / 10)) = 89
  rw [s1_heat 0 0 0, jetRGB_255_0]
  have harg : ((128 : ℕ) : ℚ) * (7 / 10) + black1.val 0 0 0 * (3 / 10) = 448 / 5 := by
    norm_num [black1, constArr3]
  rw [harg]
  exact toUInt8_eq_of _ 89 (by norm_num) (by norm_num) (by norm_num)

theorem s1_comp_white :
    (compositeOf (heatStage stubModel1 mid1 0 (1, 1) uniform11) white1).val 0 0 0 = 166 := by
  show toUInt8 (((heatStage stubModel1 mid1 0 (1, 1) uniform11).val 0 0 0 : ℚ) * (7 / 10) +
    white1.val 0 0 0 * (3 / 10)) = 166
  rw [s1_heat 0 0 0, jetRGB_255_0]
  have harg : ((128 : ℕ) : ℚ) * (7 / 10) + white1.val 0 0 0 * (3 / 10) = 1661 / 10 := by
    norm_num [white1, constArr3]
  rw [harg]
  exact toUInt8_eq_of _ 166 (by norm_num) (by norm_num) (by norm_num)

/-- Witness for C3 at the constant-gradient one-class stub. -/
theorem c3_degenerate_skip_total_witness :
    listMax (brainVals (maskedStage stubModel1 mid1 0 (1, 1))) =
        listMin (brainVals (maskedStage stubModel1 mid1 0 (1, 1))) ∧
      0 < stubModel1.numClasses ∧
      (normStage stubModel1 mid1 0 (1, 1) = maskedStage stubModel1 mid1 0 (1, 1) ∧
        ∃ comp, generateSaliencyMap stubModel1 mid1 0 (1, 1) uniform11 black1 =
          Except.ok comp) :=
  ⟨s1_minmax, by decide,
    c3_degenerate_skip_total stubModel1 mid1 0 (1, 1) uniform11 black1 s1_minmax (by decide)⟩

/-- C7 counterexample: two calls with the same classifier, tensor, class
index, output size and blur kernel, differing only in the enclosing-scope
original image, return different composites, so the generator is not a
function of its parameters alone. -/
theorem c7_cex_global_image :
    compositeValAt (generateSaliencyMap stubModel1 mid1 0 (1, 1) uniform11 black1) 0 0 0 =
        some 89 ∧
      compositeValAt (generateSaliencyMap stubModel1 mid1 0 (1, 1) uniform11 white1) 0 0 0 =
        some 166 ∧
      generateSaliencyMap stubModel1 mid1 0 (1, 1) uniform11 black1 ≠
        generateSaliencyMap stubModel1 mid1 0 (1, 1) uniform11 white1 := by
  have h1 : compositeValAt (generateSaliencyMap stubModel1 mid1 0 (1, 1) uniform11 black1)
      0 0 0 = some 89 := by
    rw [gen_ok (by decide)]
    exact congrArg some s1_comp_black
  have h2 : compositeValAt (generateSaliencyMap stubModel1 mid1 0 (1, 1) uniform11 white1)
      0 0 0 = some 166 := by
    rw [gen_ok (by decide)]
    exact congrArg some s1_comp_white
  refine ⟨h1, h2, fun hcontra => ?_⟩
  have h3 := congrArg (fun r => compositeValAt r 0 0 0) hcontra
  simp only [h1, h2] at h3
  exact absurd h3 (by simp)

/-- C7 amended: the composite is deterministic in the parameters together
with the enclosing-scope original image: two calls that agree on the
classifier, tensor, class index, output size, kernel and on the original
image over its extent return the same composite values at every in-range
pixel. -/
theorem c7_determinism_with_state (m : DiffModel) (imgArray : Arr3) (ci : ℕ) (sz : ℕ × ℕ)
    (k : List ℚ) (o1 o2 : Arr3)
    (hval : ∀ y x c, y < sz.2 → x < sz.1 → c < 3 → o1.val y x c = o2.val y x c) :
    ∀ y x c, y < sz.2 → x < sz.1 → c < 3 →
      compositeValAt (generateSaliencyMap m imgArray ci sz k o1) y x c =
        compositeValAt (generateSaliencyMap m imgArray ci sz k o2) y x c := by
  intro y x c hy hx hc
  by_cases hci : ci < m.numClasses
  · rw [gen_ok hci, gen_ok hci]
    show some (toUInt8 _) = some (toUInt8 _)
    rw [hval y x c hy hx hc]
  · have hb : m.numClasses ≤ ci := not_lt.mp hci
    show compositeValAt (generateSaliencyMapT m imgArray ci sz k o1).1 y x c =
      compositeValAt (generateSaliencyMapT m imgArray ci sz k o2).1 y x c
    rw [genT_invalid hb, genT_invalid hb]

/-- Witness for C7 amended: a second image that matches black1 on its
extent but holds junk outside it yields the same observable composite. -/
theorem c7_determinism_with_state_witness :
    (∀ y x c, y < (1, 1).2 → x < (1, 1).1 → c < 3 →
        black1.val y x c = junkImg1.val y x c) ∧
      ∀ y x c, y < (1, 1).2 → x < (1, 1).1 → c < 3 →
        compositeValAt (generateSaliencyMap stubModel1 mid1 0 (1, 1) uniform11 black1) y x c =
          compositeValAt (generateSaliencyMap stubModel1 mid1 0 (1, 1) uniform11 junkImg1)
            y x c := by
  have hval : ∀ y x c, y < (1, 1).2 → x < (1, 1).1 → c < 3 →
      black1.val y x c = junkImg1.val y x c := by
    intro y x c hy hx hc
    have hy0 : y = 0 := by omega
    have hx0 : x = 0 := by omega
    subst hy0
    subst hx0
    show (0 : ℚ) = if 0 = 0 ∧ 0 = 0 ∧ c < 3 then 0 else 42
    rw [if_pos ⟨rfl, rfl, hc⟩]
  exact ⟨hval, c7_determinism_with_state stubModel1 mid1 0 (1, 1) uniform11 black1 junkImg1 hval⟩

theorem s299_grad : ∀ y x, (gradStage stubModel299 gray299 0).val y x = 0 := by
  intro y x
  show listMax ((List.range 3).map fun c => |(0 : ℚ)|) = 0
  apply listMax_all_eq
  · intro a ha
    obtain ⟨c, _, rfl⟩ := List.mem_map.mp ha
    exact abs_zero
  · simp

theorem s299_resized : ∀ y x, (resizedStage stubModel299 gray299 0 (299, 299)).val y x = 0 :=
  resizeQ_const (299, 299) (gradStage stubModel299 gray299 0) 0 (by decide) (by decide)
    fun y x _ _ => s299_grad y x

theorem s299_masked : ∀ y x, (maskedStage stubModel299 gray299 0 (299, 299)).val y x = 0 := by
  intro y x
  unfold maskedStage
  rw [applyMask_val]
  by_cases h : inMask (resizedStage stubModel299 gray299 0 (299, 299)).h
      (resizedStage stubModel299 gray299 0 (299, 299)).w y x
  · rw [if_pos h, s299_resized]
  · rw [if_neg h]

theorem s299_brain_all :
    ∀ v ∈ brainVals (maskedStage stubModel299 gray299 0 (299, 299)), v = 0 := by
  intro v hv
  obtain ⟨p, hp, rfl⟩ := List.mem_map.mp hv
  exact s299_masked p.1 p.2

theorem s299_brain_ne : brainVals (maskedStage stubModel299 gray299 0 (299, 299)) ≠ [] :=
  brainVals_ne_nil _ 299 (by norm_num) rfl rfl

theorem s299_minmax :
    listMax (brainVals (maskedStage stubModel299 gray299 0 (299, 299))) =
      listMin (brainVals (maskedStage stubModel299 gray299 0 (299, 299))) := by
  rw [listMax_all_eq _ 0 s299_brain_all s299_brain_ne,
    listMin_all_eq _ 0 s299_brain_all s299_brain_ne]

theorem s299_norm :
    normStage stubModel299 gray299 0 (299, 299) = maskedStage stubModel299 gray299 0 (299, 299) :=
  normalizeInMask_skip _ s299_minmax

theorem s299_norm_val : ∀ y x, (normStage stubModel299 gray299 0 (299, 299)).val y x = 0 := by
  intro y x
  rw [s299_norm]
  exact s299_masked y x

theorem s299_norm_brain_all :
    ∀ v ∈ brainVals (normStage stubModel299 gray299 0 (299, 299)), v = 0 := by
  rw [s299_norm]
  exact s299_brain_all

theorem s299_norm_brain_ne : brainVals (normStage stubModel299 gray299 0 (299, 299)) ≠ [] := by
  rw [s299_norm]
  exact s299_brain_ne

theorem s299_thresh : ∀ y x, (threshStage stubModel299 gray299 0 (299, 299)).val y x = 0 := by
  intro y x
  unfold threshStage
  rw [thresholdStep_val, percentile80_all_eq _ 0 s299_norm_brain_all s299_norm_brain_ne,
    s299_norm_val y x, if_neg (lt_irrefl (0 : ℚ))]

theorem s299_blur :
    ∀ y x, (blurStage stubModel299 gray299 0 (299, 299) uniform11).val y x = 0 :=
  gaussianBlur_zero uniform11 (threshStage stubModel299 gray299 0 (299, 299))
    (by decide) (by decide) fun y x _ _ => s299_thresh y x

theorem s299_color : ∀ y x c,
    (colorMapJetRGB (blurStage stubModel299 gray299 0 (299, 299) uniform11)).val y x c =
      jetRGB 0 c := by
  intro y x c
  rw [colorMapJetRGB_val, s299_blur y x, mul_zero, toUInt8_0]

theorem s299_heat : ∀ y x c,
    (heatStage stubModel299 gray299 0 (299, 299) uniform11).val y x c = jetRGB 0 c := by
  intro y x c
  exact resize3_const (299, 299)
    (colorMapJetRGB (blurStage stubModel299 gray299 0 (299, 299) uniform11)) c (jetRGB 0 c)
    (by decide) (by decide) (jetRGB_le 0 c) (fun y x _ _ => s299_color y x c) y x

theorem s299_comp0 : ∀ y x,
    (compositeOf (heatStage stubModel299 gray299 0 (299, 299) uniform11) orig299).val y x 0 =
      38 := by
  intro y x
  rw [compositeOf_val, s299_heat y x 0, jetRGB_0_0]
  have harg : ((0 : ℕ) : ℚ) * (7 / 10) + orig299.val y x 0 * (3 / 10) = 192 / 5 := by
    norm_num [orig299, constArr3]
  rw [harg]
  exact toUInt8_eq_of _ 38 (by norm_num) (by norm_num) (by norm_num)

theorem s299_comp1 : ∀ y x,
    (compositeOf (heatStage stubModel299 gray299 0 (299, 299) uniform11) orig299).val y x 1 =
      38 := by
  intro y x
  rw [compositeOf_val, s299_heat y x 1, jetRGB_0_1]
  have harg : ((0 : ℕ) : ℚ) * (7 / 10) + orig299.val y x 1 * (3 / 10) = 192 / 5 := by
    norm_num [orig299, constArr3]
  rw [harg]
  exact toUInt8_eq_of _ 38 (by norm_num) (by norm_num) (by norm_num)

theorem s299_comp2 : ∀ y x,
    (compositeOf (heatStage stubModel299 gray299 0 (299, 299) uniform11) orig299).val y x 2 =
      128 := by
  intro y x
  rw [compositeOf_val, s299_heat y x 2, jetRGB_0_2]
  have harg : ((128 : ℕ) : ℚ) * (7 / 10) + orig299.val y x 2 * (3 / 10) = 128 := by
    norm_num [orig299, constArr3]
  rw [harg]
  exact toUInt8_eq_of _ 128 (by norm_num) (by norm_num) (by norm_num)

/-- C8 amended: in the mid-gray, constant-zero-gradient scenario the
generator raises no failure, but the composite is not 0.3 times the
original alone: the thresholded map is all zero, the jet colormap sends 0
to the RGB triple (0, 0, 128), and every pixel of the composite equals
(38, 38, 128): red and green are the 0.3-attenuated gray, while blue gains
the uniform dark-blue heatmap tint. -/
theorem c8_gray_scenario :
    ∃ comp : Arr3N,
      generateSaliencyMap stubModel299 gray299 0 (299, 299) uniform11 orig299 =
          Except.ok comp ∧
        ∀ y x, comp.val y x 0 = 38 ∧ comp.val y x 1 = 38 ∧ comp.val y x 2 = 128 :=
  ⟨_, gen_ok (by decide), fun y x => ⟨s299_comp0 y x, s299_comp1 y x, s299_comp2 y x⟩⟩

/-- C8 counterexample: in the scenario of the claim, the blue channel of
the composite at the center pixel is 128, not the 38 that 0.3 times the
mid-gray original would give, because the jet colormap sends the zeroed
map to dark blue rather than black. -/
theorem c8_cex_blue_tint :
    compositeValAt (generateSaliencyMap stubModel299 gray299 0 (299, 299) uniform11 orig299)
        149 149 2 = some 128 ∧
      toUInt8 (orig299.val 149 149 2 * (3 / 10)) = 38 ∧
      compositeValAt (generateSaliencyMap stubModel299 gray299 0 (299, 299) uniform11 orig299)
          149 149 2 ≠
        some (toUInt8 (orig299.val 149 149 2 * (3 / 10))) := by
  have h1 : compositeValAt
      (generateSaliencyMap stubModel299 gray299 0 (299, 299) uniform11 orig299) 149 149 2 =
      some 128 := by
    rw [gen_ok (by decide)]
    exact congrArg some (s299_comp2 149 149)
  have h2 : toUInt8 (orig299.val 149 149 2 * (3 / 10)) = 38 := by
    have harg : orig299.val 149 149 2 * (3 / 10) = 192 / 5 := by
      norm_num [orig299, constArr3]
    rw [harg]
    exact toUInt8_eq_of _ 38 (by norm_num) (by norm_num) (by norm_num)
  refine ⟨h1, h2, ?_⟩
  rw [h1, h2]
  simp

theorem heatStage_le (m : DiffModel) (imgArray : Arr3) (ci : ℕ) (sz : ℕ × ℕ) (k : List ℚ)
    (y x c : ℕ) : (heatStage m imgArray ci sz k).val y x c ≤ 255 := by
  show satRound _ ≤ 255
  exact satRound_le _

theorem toUInt8_eq_clip (q : ℚ) (h0 : 0 ≤ q) (h255 : q ≤ 255) :
    toUInt8 q = clipCast q ∧ 0 ≤ ratTrunc q ∧ ratTrunc q ≤ 255 := by
  have ht : ratTrunc q = ⌊q⌋ := if_pos h0
  have hf0 : (0 : ℤ) ≤ ⌊q⌋ := Int.floor_nonneg.mpr h0
  have hf255 : ⌊q⌋ ≤ 255 := by
    have h := Int.floor_mono h255
    rwa [show ⌊(255 : ℚ)⌋ = 255 from by norm_num] at h
  unfold toUInt8 clipCast
  rw [ht]
  omega

/-- C9: the composite is, per pixel and channel, the 0.7-weighted heatmap
plus 0.3-weighted original, equal to the spec clip-and-cast clipCast of
that blend, and the truncated value already lies in [0, 255], so the
uint8 conversion never wraps. -/
theorem c9_composite_blend (m : DiffModel) (imgArray : Arr3) (ci : ℕ) (sz : ℕ × ℕ)
    (k : List ℚ) (o : Arr3) (hci : ci < m.numClasses)
    (ho : ∀ y x c, 0 ≤ o.val y x c ∧ o.val y x c ≤ 255) :
    ∃ comp : Arr3N,
      generateSaliencyMap m imgArray ci sz k o = Except.ok comp ∧
        ∀ y x c,
          comp.val y x c =
            clipCast (((heatStage m imgArray ci sz k).val y x c : ℚ) * (7 / 10) +
              o.val y x c * (3 / 10)) ∧
          0 ≤ ratTrunc (((heatStage m imgArray ci sz k).val y x c : ℚ) * (7 / 10) +
              o.val y x c * (3 / 10)) ∧
          ratTrunc (((heatStage m imgArray ci sz k).val y x c : ℚ) * (7 / 10) +
              o.val y x c * (3 / 10)) ≤ 255 := by
  refine ⟨_, gen_ok hci, fun y x c => ?_⟩
  have hhb : (0 : ℚ) ≤ ((heatStage m imgArray ci sz k).val y x c : ℚ) := by positivity
  have hhb2 : ((heatStage m imgArray ci sz k).val y x c : ℚ) ≤ 255 := by
    exact_mod_cast heatStage_le m imgArray ci sz k y x c
  have ho1 := (ho y x c).1
  have ho2 := (ho y x c).2
  have h0 : 0 ≤ ((heatStage m imgArray ci sz k).val y x c : ℚ) * (7 / 10) +
      o.val y x c * (3 / 10) := by nlinarith
  have h255 : ((heatStage m imgArray ci sz k).val y x c : ℚ) * (7 / 10) +
      o.val y x c * (3 / 10) ≤ 255 := by nlinarith
  obtain ⟨he, h1, h2⟩ := toUInt8_eq_clip _ h0 h255
  exact ⟨he, h1, h2⟩

/-- Witness for C9 at the one-class stub over the black original. -/
theorem c9_composite_blend_witness :
    0 < stubModel1.numClasses ∧
      (∀ y x c, 0 ≤ black1.val y x c ∧ black1.val y x c ≤ 255) ∧
      ∃ comp : Arr3N,
        generateSaliencyMap stubModel1 mid1 0 (1, 1) uniform11 black1 = Except.ok comp ∧
          ∀ y x c,
            comp.val y x c =
              clipCast (((heatStage stubModel1 mid1 0 (1, 1) uniform11).val y x c : ℚ) *
                  (7 / 10) + black1.val y x c * (3 / 10)) ∧
            0 ≤ ratTrunc (((heatStage stubModel1 mid1 0 (1, 1) uniform11).val y x c : ℚ) *
                  (7 / 10) + black1.val y x c * (3 / 10)) ∧
            ratTrunc (((heatStage stubModel1 mid1 0 (1, 1) uniform11).val y x c : ℚ) *
                  (7 / 10) + black1.val y x c * (3 / 10)) ≤ 255 := by
  have ho : ∀ y x c, 0 ≤ black1.val y x c ∧ black1.val y x c ≤ 255 := fun y x c =>
    ⟨le_refl 0, by norm_num [black1, constArr3]⟩
  exact ⟨by decide, ho,
    c9_composite_blend stubModel1 mid1 0 (1, 1) uniform11 black1 (by decide) ho⟩

end BrainTumor
